import Mathlib

/-!
Verification development for the core SVR reconstruction routines of
`src/src/Reconstruction.cc` (SVRTK).  Machine reals (`double`) are modelled
by `ℚ` where every operation in the verified path is rational, and by `ℝ`
(with `Real.exp`, `Real.sqrt`) where the code evaluates transcendental
functions.  Decimal literals of the source are taken at their exact decimal
value.  Arrays indexed by slice number are modelled either as lists or as
functions `ℕ → ℚ` together with an explicit slice count.
-/

namespace SVRTK

/-- A voxel coordinate of the reconstructed volume (integer indices). -/
abbrev Coord := ℤ × ℤ × ℤ

/-- `POINT3D` of the coefficient lists `_volcoeffs`: a target volume voxel
`(x, y, z)` together with its PSF weight `value`. -/
structure POINT3D where
  x : ℤ
  y : ℤ
  z : ℤ
  value : ℚ
deriving DecidableEq

/-- The voxel coordinate referenced by a coefficient entry. -/
def POINT3D.coord (p : POINT3D) : Coord := (p.x, p.y, p.z)

/-- Coefficient list of one slice pixel `(i, j)`: `_volcoeffs[idx][i][j]`. -/
abbrev CellCoeffs := List POINT3D

/-- Coefficients of a whole slice: `_volcoeffs[idx]`, indexed `[i][j]`. -/
abbrev SliceCoeffs := List (List CellCoeffs)

/-- One accumulation `_volume_weights(p.x, p.y, p.z) += p.value`
(Reconstruction.cc line 1718). -/
def addPoint (w : Coord → ℚ) (p : POINT3D) : Coord → ℚ :=
  fun c => if c = p.coord then w c + p.value else w c

/-- Accumulate every entry of one pixel cell (inner `k` loop, line 1716). -/
def addCell (w : Coord → ℚ) (ps : CellCoeffs) : Coord → ℚ :=
  ps.foldl addPoint w

/-- Accumulate one row of a slice (the `j` loop, line 1715). -/
def addRow (w : Coord → ℚ) (row : List CellCoeffs) : Coord → ℚ :=
  row.foldl addCell w

/-- Accumulate a whole slice (the `i` loop, line 1714). -/
def addSlice (w : Coord → ℚ) (sc : SliceCoeffs) : Coord → ℚ :=
  sc.foldl addRow w

/-- The serial accumulation loop of `Reconstruction::CoeffInit`
(lines 1702-1721): slices are visited in order; a slice whose index occurs
in `_force_excluded` is skipped (`excluded` flag, lines 1703-1712). -/
def coeffInitGo (fe : List ℕ) : ℕ → List SliceCoeffs → (Coord → ℚ) → Coord → ℚ
  | _, [], w => w
  | idx, sc :: rest, w =>
      coeffInitGo fe (idx + 1) rest (if fe.contains idx then w else addSlice w sc)

/-- `_volume_weights` as produced by `CoeffInit`: the weight volume is
zero-initialised (`Initialize`, line 1699) and then accumulated serially. -/
def coeffInitVolumeWeights (volcoeffs : List SliceCoeffs) (fe : List ℕ) : Coord → ℚ :=
  coeffInitGo fe 0 volcoeffs fun _ => 0

/-- Re-summation of the PSF values of one pixel cell that reference `c`. -/
def cellSum (ps : CellCoeffs) (c : Coord) : ℚ :=
  (ps.map fun p => if c = p.coord then p.value else 0).sum

/-- Re-summation over one slice row. -/
def rowSum (row : List CellCoeffs) (c : Coord) : ℚ :=
  (row.map fun ps => cellSum ps c).sum

/-- Re-summation over a whole slice. -/
def sliceSum (sc : SliceCoeffs) (c : Coord) : ℚ :=
  (sc.map fun row => rowSum row c).sum

/-- Independent re-summation of all PSF coefficient values referencing a
voxel, over the slices that are not force-excluded. -/
def omegaSum (fe : List ℕ) : ℕ → List SliceCoeffs → Coord → ℚ
  | _, [], _ => 0
  | idx, sc :: rest, c =>
      (if fe.contains idx then 0 else sliceSum sc c) + omegaSum fe (idx + 1) rest c

theorem addPoint_apply (w : Coord → ℚ) (p : POINT3D) (c : Coord) :
    addPoint w p c = w c + if c = p.coord then p.value else 0 := by
  by_cases h : c = p.coord <;> simp [addPoint, h]

theorem cellSum_cons (p : POINT3D) (rest : CellCoeffs) (c : Coord) :
    cellSum (p :: rest) c = (if c = p.coord then p.value else 0) + cellSum rest c := by
  simp [cellSum]

theorem rowSum_cons (ps : CellCoeffs) (rest : List CellCoeffs) (c : Coord) :
    rowSum (ps :: rest) c = cellSum ps c + rowSum rest c := by
  simp [rowSum]

theorem sliceSum_cons (row : List CellCoeffs) (rest : SliceCoeffs) (c : Coord) :
    sliceSum (row :: rest) c = rowSum row c + sliceSum rest c := by
  simp [sliceSum]

theorem addCell_apply (ps : CellCoeffs) (w : Coord → ℚ) (c : Coord) :
    addCell w ps c = w c + cellSum ps c := by
  induction ps generalizing w with
  | nil => simp [addCell, cellSum]
  | cons p rest ih =>
      rw [show addCell w (p :: rest) = addCell (addPoint w p) rest from rfl, ih,
        addPoint_apply, cellSum_cons]
      ring

theorem addRow_apply (row : List CellCoeffs) (w : Coord → ℚ) (c : Coord) :
    addRow w row c = w c + rowSum row c := by
  induction row generalizing w with
  | nil => simp [addRow, rowSum]
  | cons ps rest ih =>
      rw [show addRow w (ps :: rest) = addRow (addCell w ps) rest from rfl, ih,
        addCell_apply, rowSum_cons]
      ring

theorem addSlice_apply (sc : SliceCoeffs) (w : Coord → ℚ) (c : Coord) :
    addSlice w sc c = w c + sliceSum sc c := by
  induction sc generalizing w with
  | nil => simp [addSlice, sliceSum]
  | cons row rest ih =>
      rw [show addSlice w (row :: rest) = addSlice (addRow w row) rest from rfl, ih,
        addRow_apply, sliceSum_cons]
      ring

theorem coeffInitGo_apply (fe : List ℕ) (vcs : List SliceCoeffs) (idx : ℕ)
    (w : Coord → ℚ) (c : Coord) :
    coeffInitGo fe idx vcs w c = w c + omegaSum fe idx vcs c := by
  induction vcs generalizing idx w with
  | nil => simp [coeffInitGo, omegaSum]
  | cons sc rest ih =>
      simp only [coeffInitGo, omegaSum]
      rw [ih]
      by_cases h : idx ∈ fe <;> simp [h, addSlice_apply, add_assoc]

/-- C1: after `CoeffInit`, the accumulated volume weight map
`_volume_weights` at every voxel equals the sum of the PSF coefficient
values `p.value` over all entries of the per-slice coefficient lists
`_volcoeffs` of slices that are not force-excluded that reference that
voxel. -/
theorem coeffInit_volume_weights_eq_resummation
    (volcoeffs : List SliceCoeffs) (fe : List ℕ) (c : Coord) :
    coeffInitVolumeWeights volcoeffs fe c = omegaSum fe 0 volcoeffs c := by
  rw [coeffInitVolumeWeights, coeffInitGo_apply]
  simp

/-- The shuffling loop of `Reconstruction::GetSliceAcquisitionOrder`
(lines 2809-2815): walk `fakeAscending` with stride `sf`; when the index
runs past the end, advance `restart` by `rf` and continue from there.  The
first argument of the recursion is the remaining iteration count
(`fa.length` at the top level), then the current `index` and `restart`. -/
def shuffleGo (fa : List ℕ) (sf rf : ℕ) : ℕ → ℕ → ℕ → List ℕ
  | 0, _, _ => []
  | n + 1, index, restart =>
      if index ≥ fa.length then
        fa.getD (restart + rf) 0 :: shuffleGo fa sf rf n (restart + rf + sf) (restart + rf)
      else
        fa.getD index 0 :: shuffleGo fa sf rf n (index + sf) restart

/-- Shuffled order of one package (`i` from `0` to `fakeAscending.size()`). -/
def shuffle (fa : List ℕ) (sf rf : ℕ) : List ℕ :=
  shuffleGo fa sf rf fa.length 0 0

/-- `fakeAscending` for package `p` (lines 2795-2806): the ascending
positions `s * pack_num + p` for `s < slicesPerPackage`, plus the extra
last slice when the stack is larger than `slicesPerPackage * pack_num`. -/
def fakeAscending (z packNum spp p : ℕ) : List ℕ :=
  ((List.range spp).map fun s => s * packNum + p) ++
    (if z > spp * packNum ∧ spp * packNum + p < z then [spp * packNum + p] else [])

/-- `realInterleaved`: concatenation of the shuffled packages
(lines 2785-2818). -/
def realInterleaved (z packNum spp sf rf : ℕ) : List ℕ :=
  ((List.range packNum).map fun p => shuffle (fakeAscending z packNum spp p) sf rf).flatten

/-- `t_slice_order[realInterleaved[i]] = i` for `i < z` (line 2823),
starting from a default-initialised array. -/
def tOrderFrom (z : ℕ) (ril : List ℕ) : List ℕ :=
  (List.range z).foldl (fun t i => t.set (ril.getD i 0) i) (List.replicate z 0)

/-- `Reconstruction::GetSliceAcquisitionOrder` (lines 2742-2835) for the
interleaved branch (order codes 3 and 5) of a single stack with `z` slices:
order 3 hardwires `stepFactor = 2`, `rewinderFactor = 1` (lines 2774-2776),
order 5 takes them from the `step` and `rewinder` arguments
(lines 2779-2782); `slicesPerPackage = attr._z / pack_num` (line 2747).
Returns `(_z_slice_order, _t_slice_order)` for this stack. -/
def getSliceAcquisitionOrderInterleaved (z packNum order step rewinder : ℕ) :
    List ℕ × List ℕ :=
  let sf := if order = 3 then 2 else step
  let rf := if order = 3 then 1 else rewinder
  let spp := z / packNum
  let ril := realInterleaved z packNum spp sf rf
  (ril.take z, tOrderFrom z ril)

/-- C4 (counterexample): for packages=4, order code 3, step=2, rewinder=1
and 12 slices, `GetSliceAcquisitionOrder` does NOT produce the permutation
`[0,4,8,1,5,9,2,6,10,3,7,11]` claimed by the spec: neither the slice
acquisition order `_z_slice_order` nor the inverse `_t_slice_order`
equals that literal. -/
theorem sliceOrder_claimed_literal_false :
    (getSliceAcquisitionOrderInterleaved 12 4 3 2 1).1 ≠
        [0, 4, 8, 1, 5, 9, 2, 6, 10, 3, 7, 11] ∧
      (getSliceAcquisitionOrderInterleaved 12 4 3 2 1).2 ≠
        [0, 4, 8, 1, 5, 9, 2, 6, 10, 3, 7, 11] := by
  constructor <;> decide

/-- C4 (amended): for packages=4, order code 3, step=2, rewinder=1 and 12
slices, `GetSliceAcquisitionOrder` produces the slice acquisition
permutation `_z_slice_order = [0,8,4,1,9,5,2,10,6,3,11,7]` (and inverse
`_t_slice_order = [0,3,6,9,2,5,8,11,1,4,7,10]`). -/
theorem sliceOrder_actual_literal :
    (getSliceAcquisitionOrderInterleaved 12 4 3 2 1).1 =
        [0, 8, 4, 1, 9, 5, 2, 10, 6, 3, 11, 7] ∧
      (getSliceAcquisitionOrderInterleaved 12 4 3 2 1).2 =
        [0, 3, 6, 9, 2, 5, 8, 11, 1, 4, 7, 10] := by
  constructor <;> decide

/-! EStep / MStep serial logic (Reconstruction.cc lines 2122-2279 and
2394-2420).  The per-voxel potentials produced by `Parallel::EStep` and the
sums produced by `Parallel::MStep` are inputs to the serial code modelled
here, so they appear as arguments.  The Gaussian likelihood helper `G`
(defined in the headers, outside this translation unit) is kept as an
explicit function parameter; no theorem below depends on its values. -/

/-- Force-exclusion override of `EStep` (lines 2129-2131): potentials of
user-predefined slices are set to `-1`, but only for indices `e` with
`e > 0 && e < _slices.size()`.  The loop writes the constant `-1`, so the
sequential writes collapse to one function update. -/
def potAfterForceExcluded (n : ℕ) (fe : List ℕ) (pot : ℕ → ℚ) : ℕ → ℚ :=
  fun j => if j ∈ fe ∧ 0 < j ∧ j < n then -1 else pot j

/-- Small-slice override of `EStep` (lines 2134-2135), no bounds guard. -/
def potAfterSmallSlices (small : List ℕ) (pot : ℕ → ℚ) : ℕ → ℚ :=
  fun j => if j ∈ small then -1 else pot j

/-- Unrealistic-scale override of `EStep` (lines 2138-2140): scales outside
`[0.2, 5]` mark the slice potential `-1`. -/
def potAfterScaleCheck (n : ℕ) (scale : ℕ → ℚ) (pot : ℕ → ℚ) : ℕ → ℚ :=
  fun j => if j < n ∧ (scale j < 1 / 5 ∨ 5 < scale j) then -1 else pot j

/-- The slice potentials after the three serial overrides of `EStep`. -/
def estepPotential (n : ℕ) (fe small : List ℕ) (scale : ℕ → ℚ) (pot : ℕ → ℚ) : ℕ → ℚ :=
  potAfterScaleCheck n scale (potAfterSmallSlices small (potAfterForceExcluded n fe pot))

/-- Sum of `f i` over slices with non-negative potential (the
`slice_potential[inputIndex] >= 0` guard of every statistics loop). -/
def validSum (n : ℕ) (pot f : ℕ → ℚ) : ℚ :=
  ∑ i ∈ Finset.range n, if 0 ≤ pot i then f i else 0

/-- `maxs` of lines 2155-2170: running maximum over valid potentials,
starting from `0`. -/
def estepMaxPot (n : ℕ) (pot : ℕ → ℚ) : ℚ :=
  (List.range n).foldl (fun m i => if 0 ≤ pot i ∧ m < pot i then pot i else m) 0

/-- `mins` of lines 2155-2170: running minimum over valid potentials,
starting from `1`. -/
def estepMinPot (n : ℕ) (pot : ℕ → ℚ) : ℚ :=
  (List.range n).foldl (fun m i => if 0 ≤ pot i ∧ pot i < m then pot i else m) 1

/-- `_mean_s` (line 2172): weighted mean of valid potentials, falling back
to `mins` when the weight total is not positive. -/
def estepMeanS (n : ℕ) (pot w : ℕ → ℚ) : ℚ :=
  let den := validSum n pot w
  if 0 < den then validSum n pot (fun i => pot i * w i) / den else estepMinPot n pot

/-- `_mean_s2` (line 2173): complementary-weighted mean, falling back to
`(maxs + _mean_s) / 2`. -/
def estepMeanS2 (n : ℕ) (pot w : ℕ → ℚ) : ℚ :=
  let den2 := validSum n pot fun i => 1 - w i
  if 0 < den2 then validSum n pot (fun i => pot i * (1 - w i)) / den2
  else (estepMaxPot n pot + estepMeanS n pot w) / 2

/-- The lower bound `_step * _step / 6.28` used for the sigmas. -/
def sigmaLowerBound (step : ℚ) : ℚ := step ^ 2 / (157 / 25)

/-- `_sigma_s` (lines 2186-2199): weighted variance of valid potentials
clamped below by `_step^2 / 6.28`; fallback `0.025` when the sums are
degenerate. -/
def estepSigmaS (n : ℕ) (pot w : ℕ → ℚ) (step : ℚ) : ℚ :=
  let m := estepMeanS n pot w
  let vs := validSum n pot fun i => (pot i - m) ^ 2 * w i
  let vd := validSum n pot w
  if 0 < vs ∧ 0 < vd then max (vs / vd) (sigmaLowerBound step) else 1 / 40

/-- `_sigma_s2` (lines 2201-2216). -/
def estepSigmaS2 (n : ℕ) (pot w : ℕ → ℚ) (step : ℚ) : ℚ :=
  let m := estepMeanS n pot w
  let m2 := estepMeanS2 n pot w
  let vs2 := validSum n pot fun i => (pot i - m2) ^ 2 * (1 - w i)
  let vd2 := validSum n pot fun i => 1 - w i
  if 0 < vs2 ∧ 0 < vd2 then max (vs2 / vd2) (sigmaLowerBound step)
  else max ((m2 - m) ^ 2 / 4) (sigmaLowerBound step)

/-- The slice-weight assignment of `EStep` (lines 2219-2251) for one slice
with (already overridden) potentials `pot`.  The three trailing `if`
statements of the zero-likelihood branch are sequential assignments in the
source; they are mutually exclusive in the reachable branch (`m < m2`
there), so the nested conditional is equivalent. -/
def estepNewWeight (G : ℚ → ℚ → ℚ) (n : ℕ) (pot w : ℕ → ℚ) (step mixS : ℚ) (i : ℕ) : ℚ :=
  let m := estepMeanS n pot w
  let m2 := estepMeanS2 n pot w
  let vd := validSum n pot w
  if pot i = -1 then 0
  else if vd ≤ 0 ∨ m2 ≤ m then 1
  else
    let gs1 := if pot i < m2 then G (pot i - m) (estepSigmaS n pot w step) else 0
    let gs2 := if m < pot i then G (pot i - m2) (estepSigmaS2 n pot w step) else 0
    let likelihood := gs1 * mixS + gs2 * (1 - mixS)
    if 0 < likelihood then gs1 * mixS / likelihood
    else if pot i ≤ m then 1
    else if m2 ≤ pot i then 0
    else 1

/-- `_slice_weight` after the serial part of `EStep`, from the raw
potentials produced by `Parallel::EStep` (slices beyond `n` keep their
previous weight, matching the loop bound). -/
def estepSliceWeights (G : ℚ → ℚ → ℚ) (n : ℕ) (pot0 : ℕ → ℚ) (fe small : List ℕ)
    (scale w : ℕ → ℚ) (step mixS : ℚ) : ℕ → ℚ :=
  fun i =>
    if i < n then estepNewWeight G n (estepPotential n fe small scale pot0) w step mixS i
    else w i

/-- `_mix_s` update of `EStep` (lines 2253-2266): mean of the new weights
over valid slices; fallback `0.9` when every potential is negative. -/
def estepNewMixS (G : ℚ → ℚ → ℚ) (n : ℕ) (pot w : ℕ → ℚ) (step mixS : ℚ) : ℚ :=
  let num : ℚ := validSum n pot fun _ => 1
  let s := validSum n pot (estepNewWeight G n pot w step mixS)
  if 0 < num then s / num else 9 / 10

/-- Force exclusion of slice weights in `InitializeEMValues`
(lines 2053-2056) and `InitializeRobustStatistics` (lines 2098-2101): the
same `e > 0 && e < _slices.size()` guard as in `EStep`. -/
def forceExcludeSliceWeights (n : ℕ) (fe : List ℕ) (w : ℕ → ℚ) : ℕ → ℚ :=
  fun j => if j ∈ fe ∧ 0 < j ∧ j < n then 0 else w j

/-- The serial part of `Reconstruction::MStep` (lines 2397-2419), taking
the reductions `sigma`, `mix`, `num`, `min`, `max` of `Parallel::MStep` as
inputs.  When `mix <= 0` the source prints an error and calls `exit(1)`,
modelled as `Except.error`; otherwise it returns the updated
`(_sigma, _mix, _m)`. -/
def mstepSerial (iter : ℕ) (sigma mix num minI maxI step mixPrev : ℚ) :
    Except String (ℚ × ℚ × ℚ) :=
  if 0 < mix then
    let s := sigma / mix
    let s2 := if s < sigmaLowerBound step then sigmaLowerBound step else s
    let mixNew := if 1 < iter then mix / num else mixPrev
    Except.ok (s2, mixNew, 1 / (maxI - minI))
  else Except.error ("Something went wrong: sigma mix")

/-- C7: for every slice whose estimated intensity scale lies outside
`[0.2, 5]`, the serial part of `EStep` forces the slice potential to the
negative sentinel `-1` and assigns slice weight `0`, for any potentials
produced by the parallel step, any state and any Gaussian helper `G`. -/
theorem scale_out_of_range_forces_outlier
    (G : ℚ → ℚ → ℚ) (n : ℕ) (pot0 : ℕ → ℚ) (fe small : List ℕ)
    (scale w : ℕ → ℚ) (step mixS : ℚ) (i : ℕ)
    (hi : i < n) (hs : scale i < 1 / 5 ∨ 5 < scale i) :
    estepPotential n fe small scale pot0 i = -1 ∧
      estepSliceWeights G n pot0 fe small scale w step mixS i = 0 := by
  have hpot : estepPotential n fe small scale pot0 i = -1 := by
    simp only [estepPotential, potAfterScaleCheck]
    rw [if_pos ⟨hi, hs⟩]
  refine ⟨hpot, ?_⟩
  simp only [estepSliceWeights, if_pos hi, estepNewWeight, hpot]
  norm_num

/-- C7 (witness): a single slice with scale `10 ∉ [0.2, 5]` gets potential
`-1` and weight `0`. -/
theorem scale_out_of_range_forces_outlier_witness :
    estepPotential 1 [] [] (fun _ => 10) (fun _ => 1 / 2) 0 = -1 ∧
      estepSliceWeights (fun _ _ => 0) 1 (fun _ => 1 / 2) [] [] (fun _ => 10) (fun _ => 1)
        (1 / 10000) (9 / 10) 0 = 0 :=
  scale_out_of_range_forces_outlier (fun _ _ => 0) 1 (fun _ => 1 / 2) [] [] (fun _ => 10)
    (fun _ => 1) (1 / 10000) (9 / 10) 0 (by norm_num) (Or.inr (by norm_num))

/-- C6 (amended): degeneracies inside `EStep` are recovered by the
documented fallbacks and execution continues (first three conjuncts:
`sigma_s = 0.025` when the inlier variance sums are degenerate,
`mix_s = 0.9` when no slice has a valid potential, `W_i = 1` when the
inlier class is empty or the means are invalid), and `MStep` continues
with a well-defined state when its voxel-weight total `mix` is positive;
but when `mix ≤ 0` (an empty voxel-wise inlier class) `MStep` terminates
the run via `exit(1)` (last conjunct), so not every degeneracy is
recovered. -/
theorem em_degeneracy_handling :
    (∀ (n : ℕ) (pot w : ℕ → ℚ) (step : ℚ),
        (validSum n pot fun i => (pot i - estepMeanS n pot w) ^ 2 * w i) ≤ 0 ∨
          validSum n pot w ≤ 0 →
        estepSigmaS n pot w step = 1 / 40) ∧
    (∀ (G : ℚ → ℚ → ℚ) (n : ℕ) (pot w : ℕ → ℚ) (step mixS : ℚ),
        (∀ i, i < n → pot i < 0) → estepNewMixS G n pot w step mixS = 9 / 10) ∧
    (∀ (G : ℚ → ℚ → ℚ) (n : ℕ) (pot w : ℕ → ℚ) (step mixS : ℚ) (i : ℕ),
        pot i ≠ -1 →
        validSum n pot w ≤ 0 ∨ estepMeanS2 n pot w ≤ estepMeanS n pot w →
        estepNewWeight G n pot w step mixS i = 1) ∧
    (∀ (iter : ℕ) (sigma mix num minI maxI step mixPrev : ℚ), 0 < mix →
        (mstepSerial iter sigma mix num minI maxI step mixPrev).isOk = true) ∧
    (∀ (iter : ℕ) (sigma mix num minI maxI step mixPrev : ℚ), mix ≤ 0 →
        mstepSerial iter sigma mix num minI maxI step mixPrev =
          Except.error ("Something went wrong: sigma mix")) := by
  refine ⟨?_, ?_, ?_, ?_, ?_⟩
  · intro n pot w step h
    simp only [estepSigmaS]
    rw [if_neg]
    rintro ⟨h1, h2⟩
    rcases h with h | h <;> linarith
  · intro G n pot w step mixS h
    have hnum : validSum n pot (fun _ => (1 : ℚ)) = 0 := by
      refine Finset.sum_eq_zero fun i hi => ?_
      rw [if_neg]
      exact not_le.mpr (h i (Finset.mem_range.mp hi))
    simp only [estepNewMixS, hnum]
    norm_num
  · intro G n pot w step mixS i hne hdeg
    simp only [estepNewWeight]
    rw [if_neg hne, if_pos hdeg]
  · intro iter sigma mix num minI maxI step mixPrev h
    simp [mstepSerial, if_pos h, Except.isOk, Except.toBool]
  · intro iter sigma mix num minI maxI step mixPrev h
    simp only [mstepSerial]
    rw [if_neg (not_lt.mpr h)]

/-- C6 (witness): concrete instances for every conjunct of the amended
degeneracy-handling theorem. -/
theorem em_degeneracy_handling_witness :
    estepSigmaS 0 (fun _ => 0) (fun _ => 0) 1 = 1 / 40 ∧
      estepNewMixS (fun _ _ => 0) 1 (fun _ => -1) (fun _ => 1) 1 (9 / 10) = 9 / 10 ∧
      estepNewWeight (fun _ _ => 0) 0 (fun _ => 1) (fun _ => 1) 1 (9 / 10) 0 = 1 ∧
      (mstepSerial 2 1 1 1 0 100 (1 / 10000) (9 / 10)).isOk = true ∧
      mstepSerial 3 0 0 1 0 100 (1 / 10000) (9 / 10) =
        Except.error ("Something went wrong: sigma mix") := by
  refine ⟨em_degeneracy_handling.1 0 _ _ 1 (Or.inr ?_),
    em_degeneracy_handling.2.1 _ 1 _ _ 1 (9 / 10) ?_,
    em_degeneracy_handling.2.2.1 _ 0 _ _ 1 (9 / 10) 0 ?_ (Or.inl ?_),
    em_degeneracy_handling.2.2.2.1 2 1 1 1 0 100 (1 / 10000) (9 / 10) ?_,
    em_degeneracy_handling.2.2.2.2 3 0 0 1 0 100 (1 / 10000) (9 / 10) ?_⟩
  · simp [validSum]
  · intro i hi
    norm_num
  · norm_num
  · simp [validSum]
  · norm_num
  · norm_num

/-- C6 (counterexample): a numerical degeneracy that DOES terminate the
run, contradicting the claim that every degenerate case in EStep and MStep
is recovered: when the voxel-weight total `mix` reaching `MStep` is `0`
(empty inlier class), the code prints an error and calls `exit(1)`. -/
theorem mstep_zero_mix_exits :
    mstepSerial 2 0 0 1 0 100 (1 / 10000) (9 / 10) =
      Except.error ("Something went wrong: sigma mix") := by
  simp only [mstepSerial]
  rw [if_neg (lt_irrefl 0)]

/-- C2 (evaluation at the failing input): with `_force_excluded = [0]` and
two slices, the `> 0` guard of the EM steps skips index `0`: the serial
`EStep` leaves slice 0 with weight `1` (first conjunct) although the same
state with `_force_excluded = [1]` zeroes slice 1 (second conjunct);
`InitializeEMValues` / `InitializeRobustStatistics` likewise leave slice 0
with weight `1` (third conjunct); yet `CoeffInit` does skip slice 0, so of
the two identical slices each carrying PSF weight `1` at voxel `(0,0,0)`
only one reaches the volume weight map (fourth conjunct). -/
theorem force_exclusion_ignores_slice_zero :
    estepSliceWeights (fun _ _ => 0) 2 (fun _ => 1 / 2) [0] [] (fun _ => 1) (fun _ => 1)
        (1 / 10000) (9 / 10) 0 = 1 ∧
      estepSliceWeights (fun _ _ => 0) 2 (fun _ => 1 / 2) [1] [] (fun _ => 1) (fun _ => 1)
        (1 / 10000) (9 / 10) 1 = 0 ∧
      forceExcludeSliceWeights 2 [0] (fun _ => 1) 0 = 1 ∧
      coeffInitVolumeWeights [[[[⟨0, 0, 0, 1⟩]]], [[[⟨0, 0, 0, 1⟩]]]] [0] (0, 0, 0) = 1 := by
  have hsc : ∀ j : ℕ, ¬(j < 2 ∧ ((1 : ℚ) < 1 / 5 ∨ (5 : ℚ) < 1)) := by
    rintro j ⟨-, h | h⟩ <;> norm_num at h
  refine ⟨?_, ?_, ?_, ?_⟩
  · have hpot : estepPotential 2 [0] [] (fun _ => 1) (fun _ => (1 : ℚ) / 2) =
        fun _ => 1 / 2 := by
      funext j
      simp only [estepPotential, potAfterScaleCheck, potAfterSmallSlices,
        potAfterForceExcluded, List.mem_singleton, List.not_mem_nil, false_and, if_false]
      rw [if_neg (hsc j), if_neg]
      rintro ⟨rfl, h, -⟩
      exact absurd h (lt_irrefl 0)
    have hvs : ∀ f : ℕ → ℚ, validSum 2 (fun _ => 1 / 2) f = f 0 + f 1 := by
      intro f
      rw [validSum, Finset.sum_range_succ, Finset.sum_range_succ, Finset.sum_range_zero]
      norm_num
    have hms : estepMeanS 2 (fun _ => 1 / 2) (fun _ => 1) = 1 / 2 := by
      rw [estepMeanS]
      simp only [hvs]
      norm_num
    have hmax : estepMaxPot 2 (fun _ => 1 / 2) = 1 / 2 := by
      rw [estepMaxPot, show List.range 2 = [0, 1] from rfl]
      simp only [List.foldl_cons, List.foldl_nil]
      norm_num
    have hms2 : estepMeanS2 2 (fun _ => 1 / 2) (fun _ => 1) = 1 / 2 := by
      rw [estepMeanS2]
      simp only [hvs, hms, hmax]
      norm_num
    rw [estepSliceWeights]
    simp only [show (0 : ℕ) < 2 from by norm_num, if_true, hpot]
    rw [estepNewWeight]
    simp only [hms, hms2, hvs]
    norm_num
  · rw [estepSliceWeights]
    have hpot1 : estepPotential 2 [1] [] (fun _ => 1) (fun _ => (1 : ℚ) / 2) 1 = -1 := by
      simp only [estepPotential, potAfterScaleCheck, potAfterSmallSlices,
        potAfterForceExcluded, List.mem_singleton, List.not_mem_nil, false_and, if_false]
      rw [if_neg (hsc 1)]
      simp
    simp only [show (1 : ℕ) < 2 from by norm_num, if_true]
    rw [estepNewWeight]
    simp only [hpot1]
    norm_num
  · rw [forceExcludeSliceWeights]
    norm_num
  · rw [coeffInitVolumeWeights, coeffInitGo_apply]
    simp [omegaSum, sliceSum, rowSum, cellSum, POINT3D.coord]

/-! Superresolution, clamping and adaptive regularization
(Reconstruction.cc lines 2334-2444).  The parallel helpers
`Parallel::Superresolution` and `Parallel::AdaptiveRegularization1/2` are
not part of this translation unit: the addon and confidence volumes they
produce are taken as inputs, and the regularization passes are modelled
from the spec (section 4.6). -/

/-- A voxel position of the reconstructed volume. -/
abbrev Vox := ℤ × ℤ × ℤ

/-- The intensity clamp of `Superresolution` (lines 2372-2379) and
`BiasCorrectVolume` (lines 2493-2496): two sequential `if` statements
pulling the value into `[0.9 * _min_intensity, 1.1 * _max_intensity]`. -/
noncomputable def clampIntensity (minI maxI v : ℝ) : ℝ :=
  let v1 := if v < minI * (9 / 10) then minI * (9 / 10) else v
  if maxI * (11 / 10) < v1 then maxI * (11 / 10) else v1

/-- Modelled from the spec: the 13 neighbour directions `_directions` are
declared in the class header, which is not in src; section 4.6 specifies 13
nearest-neighbour directions covering the opposite pairs of the
26-neighbourhood. -/
def directions : List Vox :=
  [(1, 0, -1), (0, 1, -1), (1, 1, -1), (1, -1, -1), (1, 0, 0), (0, 1, 0),
   (1, 1, 0), (1, -1, 0), (1, 0, 1), (0, 1, 1), (1, 1, 1), (1, -1, 1), (0, 0, 1)]

/-- `factor` of `AdaptiveRegularization` (lines 2426-2431) is the
reciprocal of this: the L1 norm `|d|` of a direction. -/
noncomputable def vnorm (d : Vox) : ℝ := |(d.1 : ℝ)| + |(d.2.1 : ℝ)| + |(d.2.2 : ℝ)|

/-- Bounds test for a voxel position of an `nx × ny × nz` volume. -/
def inVolume (nx ny nz : ℕ) (v : Vox) : Bool :=
  decide (0 ≤ v.1) && decide (v.1 < (nx : ℤ)) && decide (0 ≤ v.2.1) &&
    decide (v.2.1 < (ny : ℤ)) && decide (0 ≤ v.2.2) && decide (v.2.2 < (nz : ℤ))

/-- Modelled from the spec: `Parallel::AdaptiveRegularization1` is not in
src; per section 4.6 the edge weight for direction `d` at voxel `X` is
`b_d(X) = exp(-|V0(X+d) - V0(X)|^2 / (delta^2 * |d|))`, computed from the
pre-update volume `V0` (the `original` argument of line 2425). -/
noncomputable def edgeWeight (V0 : Vox → ℝ) (delta : ℝ) (d X : Vox) : ℝ :=
  Real.exp (-((V0 (X + d) - V0 X) ^ 2 / (delta ^ 2 * vnorm d)))

/-- Modelled from the spec: one direction term of the regularization update
of section 4.6, `b_d(X)·(V(X+d)-V(X))/|d| - b_d(X-d)·(V(X)-V(X-d))/|d|`;
out-of-volume neighbours contribute nothing, and the second term uses the
edge weight of the link between `X - d` and `X`. -/
noncomputable def regTerm (V0 Vp : Vox → ℝ) (delta : ℝ) (nx ny nz : ℕ) (X d : Vox) : ℝ :=
  (if inVolume nx ny nz (X + d) then
      edgeWeight V0 delta d X * (Vp (X + d) - Vp X) / vnorm d
    else 0) -
  (if inVolume nx ny nz (X - d) then
      edgeWeight V0 delta d (X - d) * (Vp X - Vp (X - d)) / vnorm d
    else 0)

/-- Modelled from the spec: `Parallel::AdaptiveRegularization2` is not in
src; per section 4.6 the post-SR volume `Vp` is updated by
`V(X) ← V(X) + α·λ·Σ_d(...)/κ(X)`, with the confidence map `kappa` in the
denominator.  No clamping is applied after this update (the clamp of
lines 2372-2379 runs before `AdaptiveRegularization` is called at
line 2382). -/
noncomputable def adaptiveRegularizationUpdate (V0 Vp kappa : Vox → ℝ)
    (alpha lambda delta : ℝ) (nx ny nz : ℕ) : Vox → ℝ :=
  fun X =>
    if inVolume nx ny nz X ∧ 0 < kappa X then
      Vp X + alpha * lambda * ((directions.map (regTerm V0 Vp delta nx ny nz X)).sum) / kappa X
    else Vp X

/-- `Reconstruction::Superresolution` (lines 2334-2389) without the
optional global bias correction: the addon and confidence map produced by
`Parallel::Superresolution` are inputs; in non-adaptive mode the addon is
divided by the confidence and the confidence reset to 1 where positive
(lines 2354-2366); the volume is updated by `addon * _alpha` (line 2369),
clamped (lines 2372-2379), and then adaptively regularized (line 2382). -/
noncomputable def superresolutionStep (V0 addon kappa : Vox → ℝ)
    (alpha lambda delta minI maxI : ℝ) (nx ny nz : ℕ) (adaptive : Bool) : Vox → ℝ :=
  let addon2 : Vox → ℝ := fun X =>
    if adaptive then addon X else if 0 < kappa X then addon X / kappa X else addon X
  let kappa2 : Vox → ℝ := fun X =>
    if adaptive then kappa X else if 0 < kappa X then 1 else kappa X
  let V1 : Vox → ℝ := fun X => clampIntensity minI maxI (V0 X + addon2 X * alpha)
  adaptiveRegularizationUpdate V0 V1 kappa2 alpha lambda delta nx ny nz

/-- C3 (counterexample): after the full Superresolution step (update,
clamp, adaptive regularization) a voxel can lie outside
`[0.9 * I_min, 1.1 * I_max]`.  With `I_min = 0`, `I_max = 10`, a constant
pre-update volume `10`, addon `2` at the first voxel of a `2 × 1 × 1`
grid, confidence `1/1000` at the second, `alpha = 1/2`, `lambda = 1/10`,
`delta = 1`, adaptive mode: the second voxel ends at `60 > 11`. -/
theorem sr_regularization_escapes_clamp :
    superresolutionStep (fun _ => 10) (fun X => if X = ((0, 0, 0) : Vox) then 2 else 0)
        (fun X => if X = ((1, 0, 0) : Vox) then 1 / 1000 else 1)
        (1 / 2) (1 / 10) 1 0 10 2 1 1 true (1, 0, 0) = 60 ∧
      ¬(superresolutionStep (fun _ => 10) (fun X => if X = ((0, 0, 0) : Vox) then 2 else 0)
          (fun X => if X = ((1, 0, 0) : Vox) then 1 / 1000 else 1)
          (1 / 2) (1 / 10) 1 0 10 2 1 1 true (1, 0, 0) ≤ 10 * (11 / 10)) := by
  have h : superresolutionStep (fun _ => 10) (fun X => if X = ((0, 0, 0) : Vox) then 2 else 0)
      (fun X => if X = ((1, 0, 0) : Vox) then 1 / 1000 else 1)
      (1 / 2) (1 / 10) 1 0 10 2 1 1 true (1, 0, 0) = 60 := by
    simp only [superresolutionStep, adaptiveRegularizationUpdate, regTerm, edgeWeight,
      clampIntensity, inVolume, directions, vnorm, List.map_cons, List.map_nil,
      List.sum_cons, List.sum_nil, Prod.mk_add_mk, Prod.mk_sub_mk, if_true]
    norm_num [Real.exp_zero]
  refine ⟨h, ?_⟩
  rw [h]
  norm_num

/-- C3 (amended): the clamp contract holds immediately after the
gradient-like volume update, BEFORE adaptive regularization: provided the
interval is non-degenerate, every clamped voxel lies in
`[0.9 * I_min, 1.1 * I_max]`.  The subsequent regularization update is not
followed by a re-clamp and can leave the interval. -/
theorem sr_clamp_bounds (minI maxI v : ℝ) (h : minI * (9 / 10) ≤ maxI * (11 / 10)) :
    minI * (9 / 10) ≤ clampIntensity minI maxI v ∧
      clampIntensity minI maxI v ≤ maxI * (11 / 10) := by
  simp only [clampIntensity]
  split_ifs <;> constructor <;> linarith

/-- C3 (witness): the clamp bounds at `I_min = 0`, `I_max = 10`,
`v = 100`. -/
theorem sr_clamp_bounds_witness :
    (0 : ℝ) * (9 / 10) ≤ clampIntensity 0 10 100 ∧
      clampIntensity 0 10 100 ≤ 10 * (11 / 10) :=
  sr_clamp_bounds 0 10 100 (by norm_num)

/-! Quality evaluation (Reconstruction.cc lines 862-905).  In the source,
`nt` is a local `RealImage` and `nt = _slices[inputIndex]` deep-copies the
slice (MIRTK images have value semantics, and `nt` is `private` to each
OpenMP thread); `_slices` is only read.  The model therefore returns the
slice store unchanged, alongside the computed NRMSE. -/

/-- The local buffer `nt` after the mutation loop of
`EvaluateReconQuality` (lines 875-884): pixels with `nt > 0 && ns > 0` are
scaled by `exp(-bias) * scale`. -/
noncomputable def ntFinal (slice sim bias : ℕ × ℕ → ℝ) (scale : ℝ) : ℕ × ℕ → ℝ :=
  fun p => if 0 < slice p ∧ 0 < sim p then slice p * Real.exp (-bias p) * scale else slice p

/-- The per-slice NRMSE of `EvaluateReconQuality` (lines 869-888). -/
noncomputable def sliceNRMSE (nx ny : ℕ) (slice sim bias : ℕ × ℕ → ℝ) (scale : ℝ) : ℝ :=
  let valid := (Finset.range nx ×ˢ Finset.range ny).filter fun p => 0 < slice p ∧ 0 < sim p
  let sN : ℝ := valid.card
  let sT := ∑ p ∈ valid, ntFinal slice sim bias scale p
  let sDiff := ∑ p ∈ valid, (ntFinal slice sim bias scale p - sim p) ^ 2
  if 0 < valid.card then Real.sqrt (sDiff / sN) / (sT / sN) else 0

/-- `Reconstruction::EvaluateReconQuality` (lines 862-905): returns the
mean NRMSE over slices with positive NRMSE together with the slice store
after the call. -/
noncomputable def evaluateReconQuality (nx ny : ℕ) (slices sims biases : List (ℕ × ℕ → ℝ))
    (scales : List ℝ) : ℝ × List (ℕ × ℕ → ℝ) :=
  let rmseValues := (List.range slices.length).map fun i =>
    sliceNRMSE nx ny (slices.getD i fun _ => 0) (sims.getD i fun _ => 0)
      (biases.getD i fun _ => 0) (scales.getD i 0)
  let sliceN := (rmseValues.filter fun v => 0 < v).length
  (if 0 < sliceN then rmseValues.sum / sliceN else 0, slices)

/-- C8 (amended): `EvaluateReconQuality` is read-only on the stored
slices: the slice store after the call equals the store before it; the
`exp(-B) * s` scaling of the claim is applied to the local copy `nt`
only (second conjunct). -/
theorem evaluateReconQuality_readonly (nx ny : ℕ) (slices sims biases : List (ℕ × ℕ → ℝ))
    (scales : List ℝ) :
    (evaluateReconQuality nx ny slices sims biases scales).2 = slices ∧
      ∀ (slice sim bias : ℕ × ℕ → ℝ) (scale : ℝ) (p : ℕ × ℕ),
        0 < slice p → 0 < sim p →
        ntFinal slice sim bias scale p = slice p * Real.exp (-bias p) * scale := by
  refine ⟨rfl, fun slice sim bias scale p h1 h2 => ?_⟩
  rw [ntFinal, if_pos ⟨h1, h2⟩]

/-- C8 (witness): the read-only theorem applied to a concrete one-pixel
store with bias `0` and scale `2`. -/
theorem evaluateReconQuality_readonly_witness :
    (evaluateReconQuality 1 1 [fun _ => 5] [fun _ => 1] [fun _ => 0] [2]).2 =
        [fun _ => 5] ∧
      ntFinal (fun _ => 5) (fun _ => 1) (fun _ => 0) 2 (0, 0) =
        5 * Real.exp (-(0 : ℝ)) * 2 :=
  ⟨(evaluateReconQuality_readonly 1 1 [fun _ => 5] [fun _ => 1] [fun _ => 0] [2]).1,
    (evaluateReconQuality_readonly 1 1 [fun _ => 5] [fun _ => 1] [fun _ => 0] [2]).2
      (fun _ => 5) (fun _ => 1) (fun _ => 0) 2 (0, 0) (by norm_num) (by norm_num)⟩

/-- C8 (counterexample): at a concrete input where the scaling condition
holds with `exp(-B) * s = 2 ≠ 1`, the stored slice list after
`EvaluateReconQuality` still equals its value before the call (first
conjunct), refuting the claimed mutation; the scaling does happen, but on
the local copy `nt` (second conjunct: the copy ends at `10 ≠ 5`). -/
theorem evaluateReconQuality_no_mutation :
    (evaluateReconQuality 1 1 [fun _ => 5] [fun _ => 1] [fun _ => 0] [2]).2 =
        [fun _ => 5] ∧
      ntFinal (fun _ => 5) (fun _ => 1) (fun _ => 0) 2 (0, 0) = 10 := by
  refine ⟨rfl, ?_⟩
  rw [ntFinal]
  norm_num

/-! Structural exclusion and NCC (Reconstruction.cc lines 1324-1398,
3781-3839) and the constructor default (line 148). -/

/-- `_global_NCC_threshold` default from the constructor (line 148). -/
def defaultGlobalNCCThreshold : ℚ := 13 / 20

/-- Sentinel conversion of `StructuralExclusion` (lines 1379-1380): an
NCC of `-1` (undefined, too little overlap) is replaced by `1`. -/
noncomputable def structuralNCCValue (ncc : ℝ) : ℝ := if ncc = -1 then 1 else ncc

/-- The gating assignment of `StructuralExclusion` (lines 1385-1390):
`_reg_slice_weight` is `1` when `output_ncc > _global_NCC_threshold` and
`-1` otherwise. -/
noncomputable def regWeightFromNCC (ncc threshold : ℝ) : ℝ :=
  if threshold < ncc then 1 else -1

/-- Positions where both images exceed the threshold
(`slice_1_ptr[j] > threshold && slice_2_ptr[j] > threshold`); the two
counts `slice_1_n` and `slice_2_n` of the source use this same predicate
over the common voxel range, so both equal the length of this list. -/
def jointOver (s1 s2 : List ℚ) (t : ℚ) : List (ℚ × ℚ) :=
  (s1.zip s2).filter fun p => t < p.1 ∧ t < p.2

/-- `Reconstruction::ComputeNCC` (lines 3781-3839): with fewer than 5
joint over-threshold positions the sentinel `-1` is returned; otherwise
the normalized cross-correlation (or `0` when a variance vanishes). -/
noncomputable def computeNCC (s1 s2 : List ℚ) (t : ℚ) : ℝ :=
  let joint := jointOver s1 s2 t
  if joint.length < 5 then -1
  else
    let m1 : ℚ := (joint.map Prod.fst).sum / joint.length
    let m2 : ℚ := (joint.map Prod.snd).sum / joint.length
    let diffSum : ℚ := (joint.map fun p => (p.1 - m1) * (p.2 - m2)).sum
    let sq1 : ℚ := (joint.map fun p => (p.1 - m1) ^ 2).sum
    let sq2 : ℚ := (joint.map fun p => (p.2 - m2) ^ 2).sum
    if 0 < sq1 * sq2 then (diffSum : ℝ) / Real.sqrt ((sq1 : ℝ) * (sq2 : ℝ)) else 0

/-- C10: when two images have fewer than 5 joint over-threshold voxel
positions, `ComputeNCC` returns the sentinel `-1`, and
`StructuralExclusion` converts that sentinel to an NCC of `1`, so with the
default threshold `0.65` the slice is kept (`_reg_slice_weight = 1`),
never excluded. -/
theorem undefined_ncc_keeps_slice (s1 s2 : List ℚ) (t : ℚ)
    (h : (jointOver s1 s2 t).length < 5) :
    computeNCC s1 s2 t = -1 ∧
      regWeightFromNCC (structuralNCCValue (computeNCC s1 s2 t))
        ((defaultGlobalNCCThreshold : ℚ) : ℝ) = 1 := by
  have hncc : computeNCC s1 s2 t = -1 := by
    rw [computeNCC]
    simp only [if_pos h]
  refine ⟨hncc, ?_⟩
  rw [hncc, structuralNCCValue, if_pos rfl, regWeightFromNCC, if_pos]
  rw [defaultGlobalNCCThreshold]
  norm_num

/-- C10 (witness): two empty images have 0 joint positions, so the slice
is kept. -/
theorem undefined_ncc_keeps_slice_witness :
    computeNCC [] [] 0 = -1 ∧
      regWeightFromNCC (structuralNCCValue (computeNCC [] [] 0))
        ((defaultGlobalNCCThreshold : ℚ) : ℝ) = 1 :=
  undefined_ncc_keeps_slice [] [] 0 (by decide)

/-- C5 (counterexample): at an NCC exactly equal to the default threshold
`0.65` the code sets `_reg_slice_weight = -1` although the NCC is not
below the threshold, so the gate is not `-1 exactly when NCC < threshold`
as claimed. -/
theorem ncc_at_threshold_is_excluded :
    regWeightFromNCC (structuralNCCValue ((13 : ℝ) / 20)) ((13 : ℝ) / 20) = -1 ∧
      ¬((13 : ℝ) / 20 < (13 : ℝ) / 20) := by
  constructor
  · rw [structuralNCCValue, if_neg (by norm_num), regWeightFromNCC, if_neg (lt_irrefl _)]
  · exact lt_irrefl _

/-- C5 (amended): `StructuralExclusion` sets `_reg_slice_weight` to `-1`
exactly when the effective NCC (after the sentinel conversion) is less
than or equal to `_global_NCC_threshold`, and to `+1` exactly when it is
strictly greater; the default threshold is `0.65`. -/
theorem structural_exclusion_gate (ncc threshold : ℝ) :
    (regWeightFromNCC (structuralNCCValue ncc) threshold = -1 ↔
        structuralNCCValue ncc ≤ threshold) ∧
      (regWeightFromNCC (structuralNCCValue ncc) threshold = 1 ↔
        threshold < structuralNCCValue ncc) ∧
      defaultGlobalNCCThreshold = 13 / 20 := by
  refine ⟨?_, ?_, rfl⟩ <;> rw [regWeightFromNCC] <;>
    rcases lt_or_le threshold (structuralNCCValue ncc) with h | h
  · rw [if_pos h]
    constructor
    · intro h1
      norm_num at h1
    · intro h1
      exact absurd h (not_lt.mpr h1)
  · rw [if_neg (not_lt.mpr h)]
    simp [h]
  · rw [if_pos h]
    simp [h]
  · rw [if_neg (not_lt.mpr h)]
    constructor
    · intro h1
      norm_num at h1
    · intro h1
      exact absurd h (not_le.mpr h1)

/-- C5 (witness): the gate applied at NCC `1` and the default threshold
gives `+1`. -/
theorem structural_exclusion_gate_witness :
    regWeightFromNCC (structuralNCCValue 1) ((13 : ℝ) / 20) = 1 :=
  (structural_exclusion_gate 1 ((13 : ℝ) / 20)).2.1.mpr
    (by rw [structuralNCCValue, if_neg (by norm_num)]; norm_num)

/-- The per-pixel update of `Reconstruction::BackgroundFiltering`
(lines 3771-3773): the filtered value
`tmp_slice_b + global_blurred - tmp_slice`, replaced by `1` when strictly
negative. -/
def backgroundFilteredValue (b g t : ℚ) : ℚ :=
  let v := b + g - t
  if v < 0 then 1 else v

/-- C9 (counterexample): a computed value of exactly `0` is non-positive
but is NOT replaced by `1`: the output pixel stays `0`, so the filtered
stack can contain a non-positive pixel. -/
theorem background_filter_zero_survives :
    (1 : ℚ) + 2 - 3 ≤ 0 ∧ backgroundFilteredValue 1 2 3 = 0 := by
  constructor
  · norm_num
  · rw [backgroundFilteredValue]
    norm_num

/-- C9 (amended): `BackgroundFiltering` replaces the computed pixel value
by `1` exactly when it is strictly negative and keeps it otherwise, so no
output pixel is negative (a pixel of exactly `0` survives as `0`). -/
theorem background_filter_behaviour (b g t : ℚ) :
    (b + g - t < 0 → backgroundFilteredValue b g t = 1) ∧
      (0 ≤ b + g - t → backgroundFilteredValue b g t = b + g - t) ∧
      0 ≤ backgroundFilteredValue b g t := by
  refine ⟨fun h => ?_, fun h => ?_, ?_⟩
  · rw [backgroundFilteredValue, if_pos h]
  · rw [backgroundFilteredValue, if_neg (not_lt.mpr h)]
  · rw [backgroundFilteredValue]
    rcases lt_or_le (b + g - t) 0 with h | h
    · rw [if_pos h]
      norm_num
    · rw [if_neg (not_lt.mpr h)]
      exact h

/-- C9 (witness): a negative value is replaced by `1`; a positive value is
kept. -/
theorem background_filter_behaviour_witness :
    backgroundFilteredValue 0 0 1 = 1 ∧ backgroundFilteredValue 2 2 3 = 2 + 2 - 3 :=
  ⟨(background_filter_behaviour 0 0 1).1 (by norm_num),
    (background_filter_behaviour 2 2 3).2.1 (by norm_num)⟩

end SVRTK
